import Mathlib

/-!
Verification of the PVR (personal video recorder) core of this repository:
the timers container and scheduler (`pvr/timers/PVRTimers.h`), the manager
state machine and job queue (`pvr/PVRManager.h`) and the EPG guide window
(`pvr/windows/GUIWindowPVRGuide.cpp`), shallowly embedded in Lean.

Where only a C++ header is part of the repository slice (the `.cpp`
implementation files of `CPVRTimers` and `CPVRManager` are absent), the
behaviour is modelled from the specification document; each such definition
carries a doc comment starting with `Modelled from the spec:`.
-/

namespace PVR

/-- Status of a timer record, from the spec's timer state machine:
new, scheduled, recording, completed, aborted, error, conflict, disabled. -/
inductive TimerState where
  | new
  | scheduled
  | recording
  | completed
  | aborted
  | error
  | conflict
  | disabled
deriving DecidableEq

/-- A timer record (`CPVRTimerInfoTag`): identity is the
(clientId, clientIndex) pair; `timerId` is the process-wide synthetic
numeric id assigned on first insertion; `startTime` is the scheduled start
timestamp; `isReminder` distinguishes notify-only reminders from recording
timers; `isRadio` is the channel kind; `title` stands for the mutable
payload fields merged on backend refresh; `reminderQueued` is the
locally-tracked reminder-announcement state. -/
structure TimerTag where
  clientId : Int
  clientIndex : Int
  timerId : Nat
  startTime : Nat
  state : TimerState
  isReminder : Bool
  isRadio : Bool
  title : Nat
  reminderQueued : Bool
deriving DecidableEq

/-- Modelled from the spec: `CPVRTimers::UpdateEntry` merge step (the
implementation file is not in the repository slice). The mutable fields of
the incoming tag are copied onto the existing record, preserving the
synthetic numeric id and the locally-tracked reminder-announcement state. -/
def mergeTags (existing incoming : TimerTag) : TimerTag :=
  { incoming with
      timerId := existing.timerId
      reminderQueued := existing.reminderQueued }

/-- The timers map type (`CPVRTimersContainer::MapTags`): an ordered mapping
from start timestamp to the vector of timer records with that start time. -/
abbrev MapTags := List (Nat × List TimerTag)

/-- Does the tag carry the given (clientId, clientIndex) identity? -/
def keyMatch (cid cidx : Int) (t : TimerTag) : Bool :=
  t.clientId == cid && t.clientIndex == cidx

/-- First tag with the given identity in one bucket (vector scan order). -/
def lookupBucket (cid cidx : Int) : List TimerTag → Option TimerTag
  | [] => none
  | t :: ts => if keyMatch cid cidx t then some t else lookupBucket cid cidx ts

/-- `CPVRTimersContainer::GetByClient`: first tag with the given identity,
scanning buckets in map order and each bucket in insertion order. -/
def lookupTags (cid cidx : Int) : MapTags → Option TimerTag
  | [] => none
  | (_, b) :: rest =>
    match lookupBucket cid cidx b with
    | some t => some t
    | none => lookupTags cid cidx rest

/-- Modelled from the spec: `CPVRTimersContainer::InsertEntry` (the
implementation file is not in the repository slice). Inserts the tag into
the date-indexed map, appending to the bucket for its start time, keeping
the buckets ordered by start timestamp. -/
def InsertEntry (t : TimerTag) : MapTags → MapTags
  | [] => [(t.startTime, [t])]
  | (k, b) :: rest =>
    if t.startTime < k then (t.startTime, [t]) :: (k, b) :: rest
    else if t.startTime = k then (k, b ++ [t]) :: rest
    else (k, b) :: InsertEntry t rest

/-- Replace the first tag with the given identity in one bucket. -/
def replaceBucket (cid cidx : Int) (f : TimerTag → TimerTag) :
    List TimerTag → List TimerTag
  | [] => []
  | t :: ts =>
    if keyMatch cid cidx t then f t :: ts
    else t :: replaceBucket cid cidx f ts

/-- Does some tag in the bucket carry the given identity? -/
def bucketHasKey (cid cidx : Int) (b : List TimerTag) : Bool :=
  b.any (keyMatch cid cidx)

/-- Replace the first tag with the given identity in the map (same scan
order as `lookupTags`). -/
def replaceTags (cid cidx : Int) (f : TimerTag → TimerTag) : MapTags → MapTags
  | [] => []
  | (k, b) :: rest =>
    if bucketHasKey cid cidx b then (k, replaceBucket cid cidx f b) :: rest
    else (k, b) :: replaceTags cid cidx f rest

/-- All tags of the map in scan order: buckets chronologically, insertion
order within a bucket. -/
def allTags : MapTags → List TimerTag
  | [] => []
  | (_, b) :: rest => b ++ allTags rest

/-- Keep only the tags satisfying the predicate, preserving the map
structure and the scan order of the survivors. -/
def filterTags (p : TimerTag → Bool) : MapTags → MapTags
  | [] => []
  | (k, b) :: rest => (k, b.filter p) :: filterTags p rest

/-- The timers container (`CPVRTimersContainer`): the date-indexed map of
tags plus the last assigned synthetic numeric id. -/
structure TimersContainer where
  lastId : Nat
  tags : MapTags
deriving DecidableEq

/-- Modelled from the spec: `CPVRTimersContainer::UpdateFromClient` (the
implementation file is not in the repository slice). Upserts a record: if a
record with the same (clientId, clientIndex) identity exists, the incoming
mutable fields are merged onto it in place, preserving its numeric id;
otherwise the tag is inserted with a newly incremented numeric id. Returns
whether the mutation changed anything observable. -/
def UpdateFromClient (c : TimersContainer) (timer : TimerTag) :
    Bool × TimersContainer :=
  match lookupTags timer.clientId timer.clientIndex c.tags with
  | some existing =>
    (decide (mergeTags existing timer ≠ existing),
     { c with
         tags := replaceTags timer.clientId timer.clientIndex
           (fun e => mergeTags e timer) c.tags })
  | none =>
    (true,
     { lastId := c.lastId + 1
       tags := InsertEntry { timer with timerId := c.lastId + 1 } c.tags })

/-- Apply a sequence of `UpdateFromClient` calls, left to right. -/
def applyUpdates (c : TimersContainer) : List TimerTag → TimersContainer
  | [] => c
  | t :: ts => applyUpdates (UpdateFromClient c t).2 ts

/-- Modelled from the spec: the reconciliation pass of
`CPVRTimers::UpdateEntries(timers, failedClients)` (the implementation file
is not in the repository slice). Every record reported in the snapshot is
upserted; afterwards, records absent from the snapshot are removed unless
their owning client failed this refresh cycle, in which case the client's
existing records are left untouched. -/
def UpdateEntries (c : TimersContainer) (snapshot : TimersContainer)
    (failedClients : List Int) : TimersContainer :=
  let merged := applyUpdates c (allTags snapshot.tags)
  { merged with
      tags := filterTags
        (fun t =>
          (lookupTags t.clientId t.clientIndex snapshot.tags).isSome
            || failedClients.contains t.clientId)
        merged.tags }

/-- Timer kind filter of `CPVRTimers` (`TimerKindAny/TV/Radio`). -/
inductive TimerKind where
  | any
  | tv
  | radio
deriving DecidableEq

/-- Modelled from the spec: `CPVRTimers::KindMatchesTag`. -/
def KindMatchesTag (k : TimerKind) (t : TimerTag) : Bool :=
  match k with
  | .any => true
  | .tv => !t.isRadio
  | .radio => t.isRadio

/-- The selection predicate of the next-active-timer scan: status is
scheduled (not recording, not completed), the kind matches, and, when
reminders are to be ignored, the is-reminder flag is clear. -/
def nextActiveSelect (k : TimerKind) (bIgnoreReminders : Bool)
    (t : TimerTag) : Bool :=
  KindMatchesTag k t && t.state == .scheduled
    && (!bIgnoreReminders || !t.isReminder)

/-- Modelled from the spec: `CPVRTimers::GetNextActiveTimer(eKind,
bIgnoreReminders)` (the implementation file is not in the repository
slice). Scans the buckets in chronological order and each bucket in
insertion order; the first record whose status is scheduled, whose kind
matches, and which is not an ignored reminder, is the answer; null when no
such record exists. -/
def GetNextActiveTimerKind (k : TimerKind) (bIgnoreReminders : Bool) :
    MapTags → Option TimerTag
  | [] => none
  | (_, b) :: rest =>
    match b.find? (nextActiveSelect k bIgnoreReminders) with
    | some t => some t
    | none => GetNextActiveTimerKind k bIgnoreReminders rest

/-- `CPVRTimers::GetNextActiveTimer(bIgnoreReminders)`: the any-kind
variant of the scan. -/
def GetNextActiveTimer (c : TimersContainer) (bIgnoreReminders : Bool) :
    Option TimerTag :=
  GetNextActiveTimerKind .any bIgnoreReminders c.tags

/-- Result type of timer operations (`PVR::TimerOperationResult`). -/
inductive TimerOperationResult where
  | OK
  | RECORDING
  | FAILED
deriving DecidableEq

/-- Client id used by purely local (non-backend) timers. -/
def localClientId : Int := -1

/-- Modelled from the spec: `CPVRTimers::DeleteTimer` (the implementation
file is not in the repository slice). Deleting a currently recording timer
without force fails with the distinct RECORDING result and leaves the
container unmodified; otherwise a purely local timer is removed from the
container immediately, while a backend timer only has the delete request
forwarded (the container is updated by the backend's next snapshot). -/
def DeleteTimer (c : TimersContainer) (tag : TimerTag) (bForce : Bool) :
    TimerOperationResult × TimersContainer :=
  if tag.state == .recording && !bForce then
    (.RECORDING, c)
  else if tag.clientId == localClientId then
    (.OK, { c with tags := filterTags (fun t => !keyMatch tag.clientId tag.clientIndex t) c.tags })
  else
    (.OK, c)

/-- State of `CPVRTimers`: the container plus the FIFO of due reminders
waiting to be announced (`m_remindersToAnnounce`), holding timer ids,
front of the list first. -/
structure TimersState where
  container : TimersContainer
  remindersToAnnounce : List Nat
deriving DecidableEq

/-- Is the tag a reminder that is due at `now` and not yet queued? -/
def dueUnqueued (now : Nat) (t : TimerTag) : Bool :=
  t.isReminder && t.startTime ≤ now && !t.reminderQueued

/-- One pass over a bucket: mark every due, not-yet-queued reminder as
queued and collect its timer id, in scan order. -/
def markDueBucket (now : Nat) : List TimerTag → List TimerTag × List Nat
  | [] => ([], [])
  | t :: ts =>
    if dueUnqueued now t then
      ({ t with reminderQueued := true } :: (markDueBucket now ts).1,
       t.timerId :: (markDueBucket now ts).2)
    else
      (t :: (markDueBucket now ts).1, (markDueBucket now ts).2)

/-- One pass over the map: mark every due, not-yet-queued reminder as
queued and collect its timer id, in scan order. -/
def markDueTags (now : Nat) : MapTags → MapTags × List Nat
  | [] => ([], [])
  | (k, b) :: rest =>
    ((k, (markDueBucket now b).1) :: (markDueTags now rest).1,
     (markDueBucket now b).2 ++ (markDueTags now rest).2)

/-- Modelled from the spec: the reminder recomputation performed after each
reconciliation (the implementation file is not in the repository slice).
Any reminder timer whose start time has passed and which is not yet queued
is appended to the due-reminder FIFO and marked as queued. -/
def queueDueReminders (now : Nat) (s : TimersState) : TimersState :=
  { container :=
      { s.container with tags := (markDueTags now s.container.tags).1 }
    remindersToAnnounce :=
      s.remindersToAnnounce ++ (markDueTags now s.container.tags).2 }

/-- Modelled from the spec: `CPVRTimers::GetNextReminderToAnnnounce` (the
implementation file is not in the repository slice). Returns the next due
reminder, if any, removing it from the queue of due reminders. -/
def GetNextReminderToAnnnounce (s : TimersState) :
    Option Nat × TimersState :=
  match s.remindersToAnnounce with
  | [] => (none, s)
  | i :: rest => (some i, { s with remindersToAnnounce := rest })

/-- Drains the due-reminder queue by repeated retrieval, returning the
announced timer ids in retrieval order. -/
def drainReminders (s : TimersState) : List Nat :=
  match h : GetNextReminderToAnnnounce s with
  | (none, _) => []
  | (some i, s2) => i :: drainReminders s2
termination_by s.remindersToAnnounce.length
decreasing_by
  simp only [GetNextReminderToAnnnounce] at h
  cases hq : s.remindersToAnnounce with
  | nil => rw [hq] at h; simp at h
  | cons a rest =>
    rw [hq] at h
    simp only at h
    cases h
    simp [hq]

/-- Well-formedness of the date-indexed map: bucket keys are strictly
increasing (chronological order) and every tag sits in the bucket of its
start timestamp. -/
def WFTags (m : MapTags) : Prop :=
  (m.map Prod.fst).Pairwise (· < ·)
    ∧ ∀ p ∈ m, ∀ t ∈ p.2, t.startTime = p.1

/-- Does the tag belong to the given client? -/
def byClient (x : Int) (t : TimerTag) : Bool :=
  t.clientId == x

/-- The effect of one reminder-recomputation pass on a single tag. -/
def markOne (now : Nat) (t : TimerTag) : TimerTag :=
  if dueUnqueued now t then { t with reminderQueued := true } else t

/-- Manager lifecycle events (the manager-state members of `PVREvent`). -/
inductive ManagerEvent where
  | managerError
  | managerStopped
  | managerStarting
  | managerStopping
  | managerInterrupted
  | managerStarted
deriving DecidableEq

/-- Manager state (`CPVRManager::ManagerState`). -/
inductive ManagerState where
  | error
  | stopped
  | starting
  | stopping
  | interrupted
  | started
deriving DecidableEq

/-- Abstract manager lifecycle state: the state enum, the number of worker
threads created so far, and the list of published lifecycle events in
publish order. -/
structure ManagerModel where
  state : ManagerState
  workerThreads : Nat
  events : List ManagerEvent
deriving DecidableEq

/-- Modelled from the spec: `CPVRManager::Start` (the implementation file
is not in the repository slice). Idempotent no-op when the manager is
already started or starting; otherwise it transitions to starting,
publishes ManagerStarting, loads the components (outcome `loadOk`), and on
success transitions to started, creates the worker thread and publishes
ManagerStarted, while on failure it transitions to error and publishes
ManagerError. -/
def ManagerModel.start (loadOk : Bool) (m : ManagerModel) : ManagerModel :=
  if m.state = .started ∨ m.state = .starting then m
  else
    let m1 : ManagerModel :=
      { m with state := .starting, events := m.events ++ [.managerStarting] }
    if loadOk then
      { m1 with
          state := .started
          workerThreads := m1.workerThreads + 1
          events := m1.events ++ [.managerStarted] }
    else
      { m1 with state := .error, events := m1.events ++ [.managerError] }

/-- A playable item handed to the playback notifications
(`CFileItem` carrying a PVR channel, a PVR recording, an EPG tag, or
something else). -/
inductive PlayItem where
  | channel (id : Nat)
  | recording (id : Nat)
  | epgTag (id : Nat)
  | other
deriving DecidableEq

/-- The manager's now-playing slots (`m_playingChannel`,
`m_playingRecording`, `m_playingEpgTag`). -/
structure NowPlaying where
  playingChannel : Option Nat
  playingRecording : Option Nat
  playingEpgTag : Option Nat
deriving DecidableEq

/-- Initial now-playing state: nothing is playing. -/
def initNowPlaying : NowPlaying :=
  { playingChannel := none, playingRecording := none, playingEpgTag := none }

/-- Modelled from the spec: `CPVRManager::OnPlaybackStarted` (the
implementation file is not in the repository slice). Clears any previously
set now-playing slot, then sets the single slot matching the item's kind. -/
def OnPlaybackStarted (_s : NowPlaying) (item : PlayItem) : NowPlaying :=
  match item with
  | .channel id =>
    { playingChannel := some id, playingRecording := none, playingEpgTag := none }
  | .recording id =>
    { playingChannel := none, playingRecording := some id, playingEpgTag := none }
  | .epgTag id =>
    { playingChannel := none, playingRecording := none, playingEpgTag := some id }
  | .other =>
    { playingChannel := none, playingRecording := none, playingEpgTag := none }

/-- Modelled from the spec: `CPVRManager::OnPlaybackStopped` (the
implementation file is not in the repository slice). Clears the now-playing
slot matching the stopped item; never sets a slot. -/
def OnPlaybackStopped (s : NowPlaying) (item : PlayItem) : NowPlaying :=
  match item with
  | .channel id =>
    if s.playingChannel = some id then { s with playingChannel := none } else s
  | .recording id =>
    if s.playingRecording = some id then { s with playingRecording := none } else s
  | .epgTag id =>
    if s.playingEpgTag = some id then { s with playingEpgTag := none } else s
  | .other => s

/-- Modelled from the spec: `CPVRManager::OnPlaybackEnded` (the
implementation file is not in the repository slice): playback ended without
user interaction, handled like a stop. -/
def OnPlaybackEnded (s : NowPlaying) (item : PlayItem) : NowPlaying :=
  OnPlaybackStopped s item

/-- One playback notification delivered to the manager. -/
inductive PlaybackCall where
  | started (item : PlayItem)
  | stopped (item : PlayItem)
  | ended (item : PlayItem)
deriving DecidableEq

/-- Apply one playback notification to the now-playing state. -/
def playbackStep (s : NowPlaying) : PlaybackCall → NowPlaying
  | .started item => OnPlaybackStarted s item
  | .stopped item => OnPlaybackStopped s item
  | .ended item => OnPlaybackEnded s item

/-- Run a sequence of playback notifications from the initial state. -/
def runPlayback (calls : List PlaybackCall) : NowPlaying :=
  calls.foldl playbackStep initNowPlaying

/-- Number of non-null now-playing slots. -/
def playingCount (s : NowPlaying) : Nat :=
  (if s.playingChannel.isSome then 1 else 0)
    + (if s.playingRecording.isSome then 1 else 0)
    + (if s.playingEpgTag.isSome then 1 else 0)

/-- A background job: identified by its kind (the logical operation). -/
structure PVRJob where
  kind : Nat
  payload : Nat
deriving DecidableEq

/-- The pending-update job queue (`CPVRManagerJobQueue`): pending jobs in
append order, plus the accept-new-jobs flag toggled by Start/Stop. -/
structure JobQueue where
  pendingUpdates : List PVRJob
  stopped : Bool
deriving DecidableEq

/-- Modelled from the spec: `CPVRManagerJobQueue::AppendJob` (the
implementation file is not in the repository slice). Adds a job, first
scanning the existing pending jobs and discarding the new one when an
equivalent job (same logical operation) is already pending, guaranteeing at
most one instance of each job kind queued at a time; no job is accepted
while the queue is stopped. -/
def AppendJob (q : JobQueue) (job : PVRJob) : JobQueue :=
  if q.stopped then q
  else if q.pendingUpdates.any (fun p => p.kind == job.kind) then q
  else { q with pendingUpdates := q.pendingUpdates ++ [job] }

/-- Modelled from the spec: `CPVRManagerJobQueue::ExecutePendingJobs` (the
implementation file is not in the repository slice). Atomically swaps out
the entire pending list and executes each job, in order, on the caller's
thread; returns the executed jobs. -/
def ExecutePendingJobs (q : JobQueue) : List PVRJob × JobQueue :=
  (q.pendingUpdates, { q with pendingUpdates := [] })

/-- Number of pending jobs of the given kind. -/
def countKind (k : Nat) (jobs : List PVRJob) : Nat :=
  jobs.countP (fun p => p.kind == k)

/-- A date value as used by `CDateTime` in the guide window: `none` is an
invalid date, `some s` a valid timestamp in seconds. -/
abbrev GuideDate := Option Int

/-- Seconds covered by `CDateTimeSpan(days, 0, 0, 0)`. -/
def daysSpan (days : Int) : Int := days * 86400

/-- The date-range computation of
`CGUIWindowPVRGuideBase::RefreshTimelineItems`
(`GUIWindowPVRGuide.cpp` lines 735-757): defaults an invalid start to the
current time, defaults an invalid or earlier-than-start end to the start,
then limits the start to the past-days-to-display bound and the end to the
future-days-to-display bound, yielding the range handed to the grid
control. -/
def refreshTimelineDateRange (firstEpgDate lastEpgDate : GuideDate)
    (currentDate : Int) (iPastDays iFutureDays : Int) : Int × Int :=
  let startDate0 : Int :=
    match firstEpgDate with
    | none => currentDate
    | some d => d
  let endDate0 : Int :=
    match lastEpgDate with
    | none => startDate0
    | some d => if d < startDate0 then startDate0 else d
  let maxPastDate : Int := currentDate - daysSpan iPastDays
  let startDate1 : Int :=
    if startDate0 < maxPastDate then maxPastDate else startDate0
  let maxFutureDate : Int := currentDate + daysSpan iFutureDays
  let endDate1 : Int :=
    if endDate0 > maxFutureDate then maxFutureDate else endDate0
  (startDate1, endDate1)

/-- The guide window state bits involved in
`CGUIWindowPVRGuideBase::Update` (`GUIWindowPVRGuide.cpp` lines 207-226):
the in-progress flag inherited from the media window, the asynchronous
refresh flag picked up by the timeline refresh thread, and the
channel-selection-restored flag. -/
structure GuideWindowState where
  bUpdating : Bool
  bRefreshTimelineItems : Bool
  bChannelSelectionRestored : Bool
deriving DecidableEq

/-- `CGUIWindowPVRGuideBase::Update` (`GUIWindowPVRGuide.cpp` lines
207-226): when an update is already in progress the call only sets the
asynchronous refresh flag and returns true; otherwise it delegates to the
base-class update (`baseUpdate`, whose behaviour lives outside this
window) and, on success with the channel selection not yet restored,
records the outcome of restoring it (`setChannelOk`). -/
def guideUpdate
    (baseUpdate : GuideWindowState → Bool × GuideWindowState)
    (setChannelOk : Bool) (s : GuideWindowState) : Bool × GuideWindowState :=
  if s.bUpdating then
    (true, { s with bRefreshTimelineItems := true })
  else
    let (bReturn, s1) := baseUpdate s
    if bReturn && !s1.bChannelSelectionRestored then
      (bReturn, { s1 with bChannelSelectionRestored := setChannelOk })
    else
      (bReturn, s1)

/-- A sequence of reminder-recomputation passes (one per reconciliation
cycle, each at its own current time), applied left to right. -/
def foldQueueDue (nows : List Nat) (s : TimersState) : TimersState :=
  nows.foldl (fun acc n => queueDueReminders n acc) s

/-- Sample scheduled timer tag used by concrete witnesses. -/
def sampleTag : TimerTag :=
  { clientId := 1, clientIndex := 2, timerId := 0, startTime := 100,
    state := .scheduled, isReminder := false, isRadio := false,
    title := 0, reminderQueued := false }

/-- Sample tag of a second client used by concrete witnesses. -/
def sampleTag2 : TimerTag :=
  { clientId := 2, clientIndex := 7, timerId := 3, startTime := 5,
    state := .scheduled, isReminder := false, isRadio := true,
    title := 0, reminderQueued := false }

/-- Sample recording timer tag used by concrete witnesses. -/
def sampleRecTag : TimerTag :=
  { clientId := 3, clientIndex := 4, timerId := 2, startTime := 5,
    state := .recording, isReminder := false, isRadio := false,
    title := 0, reminderQueued := false }

/-- Sample due reminder tag used by concrete witnesses. -/
def sampleReminderTag : TimerTag :=
  { clientId := 1, clientIndex := 9, timerId := 4, startTime := 10,
    state := .scheduled, isReminder := true, isRadio := false,
    title := 0, reminderQueued := false }

/-- Sample timers state holding one due reminder, used by concrete
witnesses. -/
def sampleReminderState : TimersState :=
  { container := { lastId := 4, tags := [(10, [sampleReminderTag])] }
    remindersToAnnounce := [] }

/-! ## Theorems -/

/-- C9: when `RefreshTimelineItems` computes the guide window's date range,
an invalid first-EPG date is replaced by the current time; an invalid or
earlier-than-start last-EPG date is replaced by the start date; the start
date is then raised to no earlier than (current time minus past-days) if
below that bound; and the end date is lowered to no later than (current
time plus future-days) if above that bound. -/
theorem refreshTimelineDateRange_clamps
    (firstEpgDate lastEpgDate : GuideDate)
    (currentDate iPastDays iFutureDays : Int) :
    refreshTimelineDateRange firstEpgDate lastEpgDate currentDate
        iPastDays iFutureDays
      = (max (firstEpgDate.getD currentDate)
             (currentDate - daysSpan iPastDays),
         min (max (lastEpgDate.getD (firstEpgDate.getD currentDate))
                  (firstEpgDate.getD currentDate))
             (currentDate + daysSpan iFutureDays)) := by
  cases firstEpgDate <;> cases lastEpgDate <;>
    simp only [refreshTimelineDateRange, Option.getD] <;>
    split_ifs <;> simp_all <;> omega

/-- C10: a call to `CGUIWindowPVRGuideBase::Update` while another update is
already in progress performs no update (the result is independent of the
base-class update), sets the asynchronous refresh flag for the timeline
refresh thread, and returns true. -/
theorem guideUpdate_concurrent_deferred
    (baseUpdate : GuideWindowState → Bool × GuideWindowState)
    (setChannelOk : Bool) (s : GuideWindowState)
    (h : s.bUpdating = true) :
    guideUpdate baseUpdate setChannelOk s
      = (true, { s with bRefreshTimelineItems := true }) := by
  simp [guideUpdate, h]

/-- Witness for C10 at a concrete state and base-class update. -/
theorem guideUpdate_concurrent_deferred_witness :
    guideUpdate (fun s => (false, s)) false
        { bUpdating := true, bRefreshTimelineItems := false,
          bChannelSelectionRestored := false }
      = (true, { bUpdating := true, bRefreshTimelineItems := true,
                 bChannelSelectionRestored := false }) :=
  guideUpdate_concurrent_deferred _ _ _ rfl

/-- C7: calling `Start` on a manager already in state started or starting
is an idempotent no-op: the state is unchanged, no worker thread is
created, and no lifecycle event is published. -/
theorem managerStart_idempotent (m : ManagerModel) (loadOk : Bool)
    (h : m.state = .started ∨ m.state = .starting) :
    m.start loadOk = m := by
  simp [ManagerModel.start, h]

/-- Witness for C7 at a concrete already-started manager. -/
theorem managerStart_idempotent_witness :
    ManagerModel.start true
        { state := .started, workerThreads := 1,
          events := [.managerStarting, .managerStarted] }
      = { state := .started, workerThreads := 1,
          events := [.managerStarting, .managerStarted] } :=
  managerStart_idempotent _ _ (Or.inl rfl)

/-- C5: deleting a timer whose status is recording with `bForce = false`
returns the distinct RECORDING result and leaves the container
unmodified. -/
theorem deleteTimer_recording_rejected (c : TimersContainer)
    (tag : TimerTag) (h : tag.state = .recording) :
    DeleteTimer c tag false = (.RECORDING, c) := by
  simp [DeleteTimer, h]

/-- Witness for C5 at a concrete recording timer. -/
theorem deleteTimer_recording_rejected_witness :
    DeleteTimer { lastId := 1, tags := [] }
        { clientId := 2, clientIndex := 3, timerId := 1, startTime := 10,
          state := .recording, isReminder := false, isRadio := false,
          title := 0, reminderQueued := false } false
      = (.RECORDING, { lastId := 1, tags := [] }) :=
  deleteTimer_recording_rejected _ _ rfl

/-- Helper: one playback notification preserves the at-most-one-playing
invariant. -/
theorem playbackStep_at_most_one (s : NowPlaying) (c : PlaybackCall)
    (h : playingCount s ≤ 1) : playingCount (playbackStep s c) ≤ 1 := by
  obtain ⟨pc, pr, pe⟩ := s
  cases c <;> rename_i item <;> cases item <;>
    cases pc <;> cases pr <;> cases pe <;>
    simp_all [playbackStep, OnPlaybackStarted, OnPlaybackStopped,
      OnPlaybackEnded, playingCount] <;>
    split_ifs <;> simp_all

/-- Helper: the at-most-one-playing invariant holds along any run. -/
theorem playback_foldl_at_most_one (calls : List PlaybackCall)
    (s : NowPlaying) (h : playingCount s ≤ 1) :
    playingCount (calls.foldl playbackStep s) ≤ 1 := by
  induction calls generalizing s with
  | nil => exact h
  | cons c cs ih => exact ih _ (playbackStep_at_most_one s c h)

/-- C4 counterexample: after the concrete sequence start-channel-0 then
stop-channel-0, none of the now-playing slots is non-null, refuting
"exactly one of the slots is non-null after any sequence of playback
notifications". -/
theorem playback_exactly_one_counterexample :
    ¬ playingCount (runPlayback
        [.started (.channel 0), .stopped (.channel 0)]) = 1 := by
  decide

/-- C4 (amended): after any sequence of playback notifications, at most
one of {playing channel, playing recording, playing guide-tag} is
non-null; each start notification clears any previously set slot before
setting a new one, so two slots are never simultaneously non-null. -/
theorem playback_at_most_one_playing (calls : List PlaybackCall) :
    playingCount (runPlayback calls) ≤ 1 := by
  have h0 : playingCount initNowPlaying ≤ 1 := by decide
  exact playback_foldl_at_most_one calls initNowPlaying h0

/-- C6: appending two equivalent jobs (same kind) to a running queue that
holds at most one pending job of that kind leaves exactly one instance of
that kind queued, and exactly one job of that kind executes at the next
drain. -/
theorem appendJob_coalesces (q : JobQueue) (j1 j2 : PVRJob)
    (hs : q.stopped = false) (hk : j2.kind = j1.kind)
    (hcount : countKind j1.kind q.pendingUpdates ≤ 1) :
    countKind j1.kind (AppendJob (AppendJob q j1) j2).pendingUpdates = 1
    ∧ countKind j1.kind
        (ExecutePendingJobs (AppendJob (AppendJob q j1) j2)).1 = 1 := by
  have hmain :
      countKind j1.kind (AppendJob (AppendJob q j1) j2).pendingUpdates
        = 1 := by
    by_cases hany : q.pendingUpdates.any (fun p => p.kind == j1.kind) = true
    · have h1 : AppendJob q j1 = q := by
        simp [AppendJob, hs, hany]
      have hpos : 0 < countKind j1.kind q.pendingUpdates := by
        obtain ⟨p, hp, hpk⟩ := List.any_eq_true.mp hany
        exact List.countP_pos_iff.mpr ⟨p, hp, hpk⟩
      have heq : countKind j1.kind q.pendingUpdates = 1 :=
        le_antisymm hcount hpos
      have hany2 : q.pendingUpdates.any (fun p => p.kind == j2.kind)
          = true := by rw [hk]; exact hany
      have h2 : AppendJob q j2 = q := by
        simp [AppendJob, hs, hany2]
      rw [h1, h2, heq]
    · have hzero : countKind j1.kind q.pendingUpdates = 0 := by
        refine List.countP_eq_zero.mpr ?_
        intro p hp hpk
        exact hany (List.any_eq_true.mpr ⟨p, hp, hpk⟩)
      have h1 : AppendJob q j1
          = { q with pendingUpdates := q.pendingUpdates ++ [j1] } := by
        simp [AppendJob, hs, hany]
      have hany2 : (q.pendingUpdates ++ [j1]).any
          (fun p => p.kind == j2.kind) = true := by
        refine List.any_eq_true.mpr ⟨j1, by simp, ?_⟩
        simp [hk]
      have h2 : AppendJob (AppendJob q j1) j2 = AppendJob q j1 := by
        rw [h1]
        simp [AppendJob, hs, hany2]
      rw [h2, h1]
      simp only [countKind, List.countP_append] at *
      simp [hzero, List.countP_cons]
  exact ⟨hmain, by simpa [ExecutePendingJobs] using hmain⟩

/-- Witness for C6 at a concrete empty running queue and two equivalent
jobs. -/
theorem appendJob_coalesces_witness :
    countKind 5 ((AppendJob (AppendJob
        { pendingUpdates := [], stopped := false }
        { kind := 5, payload := 0 }) { kind := 5, payload := 7 }).pendingUpdates)
          = 1
    ∧ countKind 5 (ExecutePendingJobs (AppendJob (AppendJob
        { pendingUpdates := [], stopped := false }
        { kind := 5, payload := 0 }) { kind := 5, payload := 7 })).1
          = 1 :=
  appendJob_coalesces { pendingUpdates := [], stopped := false }
    { kind := 5, payload := 0 } { kind := 5, payload := 7 }
    rfl rfl (by decide)

/-- Helper: a tag carrying one identity does not match a different one. -/
theorem keyMatch_unique (cid cidx qcid qcidx : Int) (t : TimerTag)
    (h : keyMatch cid cidx t = true)
    (hne : ¬(qcid = cid ∧ qcidx = cidx)) :
    keyMatch qcid qcidx t = false := by
  simp only [keyMatch, Bool.and_eq_true, beq_iff_eq] at h
  obtain ⟨h1, h2⟩ := h
  by_contra hcon
  rw [Bool.not_eq_false] at hcon
  simp only [keyMatch, Bool.and_eq_true, beq_iff_eq] at hcon
  exact hne ⟨by rw [← hcon.1]; exact h1, by rw [← hcon.2]; exact h2⟩

/-- Helper: bucket lookup over a concatenation. -/
theorem lookupBucket_append (cid cidx : Int) (b1 b2 : List TimerTag) :
    lookupBucket cid cidx (b1 ++ b2)
      = match lookupBucket cid cidx b1 with
        | some t => some t
        | none => lookupBucket cid cidx b2 := by
  induction b1 with
  | nil => simp [lookupBucket]
  | cons t ts ih =>
    simp only [List.cons_append, lookupBucket]
    by_cases h : keyMatch cid cidx t = true
    · simp [h]
    · simp [h, ih]

/-- Helper: bucket lookup fails exactly when no tag carries the identity. -/
theorem lookupBucket_eq_none (cid cidx : Int) (b : List TimerTag) :
    lookupBucket cid cidx b = none ↔ bucketHasKey cid cidx b = false := by
  induction b with
  | nil => simp [lookupBucket, bucketHasKey]
  | cons t ts ih =>
    cases hk : keyMatch cid cidx t with
    | true => simp [lookupBucket, bucketHasKey, hk]
    | false =>
      have hstep : lookupBucket cid cidx (t :: ts)
          = lookupBucket cid cidx ts := by
        simp [lookupBucket, hk]
      rw [hstep, ih]
      simp [bucketHasKey, hk]

/-- Helper: map lookup on a cons fails exactly when both parts fail. -/
theorem lookupTags_cons_eq_none (cid cidx : Int) (k : Nat)
    (b : List TimerTag) (rest : MapTags) :
    lookupTags cid cidx ((k, b) :: rest) = none
      ↔ lookupBucket cid cidx b = none
          ∧ lookupTags cid cidx rest = none := by
  simp only [lookupTags]
  cases lookupBucket cid cidx b <;> simp

/-- Helper: replacing the identity's record rewrites its lookup result,
provided the replacement keeps the identity. -/
theorem lookupBucket_replaceBucket_self (cid cidx : Int)
    (f : TimerTag → TimerTag) (b : List TimerTag)
    (hf : ∀ t, keyMatch cid cidx t = true → keyMatch cid cidx (f t) = true) :
    lookupBucket cid cidx (replaceBucket cid cidx f b)
      = (lookupBucket cid cidx b).map f := by
  induction b with
  | nil => simp [lookupBucket, replaceBucket]
  | cons t ts ih =>
    by_cases h : keyMatch cid cidx t = true
    · simp [replaceBucket, lookupBucket, h, hf t h]
    · simp [replaceBucket, lookupBucket, h, ih]

/-- Helper: replacing one identity's record leaves other identities'
bucket lookups unchanged, provided the replacement keeps the identity. -/
theorem lookupBucket_replaceBucket_other (cid cidx qcid qcidx : Int)
    (f : TimerTag → TimerTag) (b : List TimerTag)
    (hne : ¬(qcid = cid ∧ qcidx = cidx))
    (hf : ∀ t, keyMatch cid cidx t = true → keyMatch cid cidx (f t) = true) :
    lookupBucket qcid qcidx (replaceBucket cid cidx f b)
      = lookupBucket qcid qcidx b := by
  induction b with
  | nil => simp [replaceBucket]
  | cons t ts ih =>
    by_cases h : keyMatch cid cidx t = true
    · have h1 : keyMatch qcid qcidx t = false := keyMatch_unique _ _ _ _ _ h hne
      have h2 : keyMatch qcid qcidx (f t) = false :=
        keyMatch_unique _ _ _ _ _ (hf t h) hne
      simp [replaceBucket, lookupBucket, h, h1, h2]
    · simp [replaceBucket, lookupBucket, h, ih]

/-- Helper: map lookup on a cons, stated as an unfolding equation. -/
theorem lookupTags_cons (cid cidx : Int) (k : Nat) (b : List TimerTag)
    (rest : MapTags) :
    lookupTags cid cidx ((k, b) :: rest)
      = match lookupBucket cid cidx b with
        | some t => some t
        | none => lookupTags cid cidx rest := rfl

/-- Helper: what `lookupBucket_replaceBucket_self` says at the map level. -/
theorem lookupTags_replaceTags_self (cid cidx : Int)
    (f : TimerTag → TimerTag) (m : MapTags)
    (hf : ∀ t, keyMatch cid cidx t = true → keyMatch cid cidx (f t) = true) :
    lookupTags cid cidx (replaceTags cid cidx f m)
      = (lookupTags cid cidx m).map f := by
  induction m with
  | nil => simp [replaceTags, lookupTags]
  | cons p rest ih =>
    obtain ⟨k, b⟩ := p
    by_cases h : bucketHasKey cid cidx b = true
    · simp only [replaceTags, h, if_true]
      rw [lookupTags_cons, lookupTags_cons,
        lookupBucket_replaceBucket_self _ _ _ _ hf]
      cases hl : lookupBucket cid cidx b with
      | none =>
        rw [lookupBucket_eq_none] at hl
        rw [hl] at h
        cases h
      | some t => simp
    · have hl : lookupBucket cid cidx b = none :=
        (lookupBucket_eq_none _ _ _).mpr (by simpa using h)
      simp [replaceTags, h, lookupTags, hl, ih]

/-- Helper: what `lookupBucket_replaceBucket_other` says at the map
level. -/
theorem lookupTags_replaceTags_other (cid cidx qcid qcidx : Int)
    (f : TimerTag → TimerTag) (m : MapTags)
    (hne : ¬(qcid = cid ∧ qcidx = cidx))
    (hf : ∀ t, keyMatch cid cidx t = true → keyMatch cid cidx (f t) = true) :
    lookupTags qcid qcidx (replaceTags cid cidx f m)
      = lookupTags qcid qcidx m := by
  induction m with
  | nil => simp [replaceTags]
  | cons p rest ih =>
    obtain ⟨k, b⟩ := p
    by_cases h : bucketHasKey cid cidx b = true
    · simp only [replaceTags, h, if_true]
      rw [lookupTags_cons, lookupTags_cons,
        lookupBucket_replaceBucket_other _ _ _ _ _ _ hne hf]
    · simp [replaceTags, h, lookupTags, ih]

/-- Helper: inserting a tag with a fresh identity makes its lookup find
it. -/
theorem lookupTags_insertEntry_self (t : TimerTag) (m : MapTags)
    (hnone : lookupTags t.clientId t.clientIndex m = none) :
    lookupTags t.clientId t.clientIndex (InsertEntry t m) = some t := by
  have hself : keyMatch t.clientId t.clientIndex t = true := by
    simp [keyMatch]
  induction m with
  | nil => simp [InsertEntry, lookupTags, lookupBucket, hself]
  | cons p rest ih =>
    obtain ⟨k, b⟩ := p
    rw [lookupTags_cons_eq_none] at hnone
    obtain ⟨hb, hrest⟩ := hnone
    by_cases h1 : t.startTime < k
    · simp [InsertEntry, h1, lookupTags, lookupBucket, hself]
    · by_cases h2 : t.startTime = k
      · simp only [InsertEntry]
        rw [if_neg h1, if_pos h2]
        rw [lookupTags_cons, lookupBucket_append, hb]
        simp [lookupBucket, hself]
      · simp only [InsertEntry]
        rw [if_neg h1, if_neg h2]
        rw [lookupTags_cons, hb, ih hrest]

/-- Helper: inserting a tag leaves other identities' lookups unchanged. -/
theorem lookupTags_insertEntry_other (t : TimerTag) (qcid qcidx : Int)
    (m : MapTags) (hnk : keyMatch qcid qcidx t = false) :
    lookupTags qcid qcidx (InsertEntry t m)
      = lookupTags qcid qcidx m := by
  induction m with
  | nil => simp [InsertEntry, lookupTags, lookupBucket, hnk]
  | cons p rest ih =>
    obtain ⟨k, b⟩ := p
    by_cases h1 : t.startTime < k
    · simp [InsertEntry, h1, lookupTags, lookupBucket, hnk]
    · by_cases h2 : t.startTime = k
      · have hsing : lookupBucket qcid qcidx [t] = none := by
          simp [lookupBucket, hnk]
        simp only [InsertEntry]
        rw [if_neg h1, if_pos h2]
        rw [lookupTags_cons, lookupBucket_append, lookupTags_cons]
        cases lookupBucket qcid qcidx b with
        | none => simp [hsing]
        | some u => simp
      · simp only [InsertEntry]
        rw [if_neg h1, if_neg h2]
        rw [lookupTags_cons, lookupTags_cons, ih]

/-- Helper: the merge step keeps the (clientId, clientIndex) identity of
the incoming tag. -/
theorem keyMatch_mergeTags (timer : TimerTag) :
    ∀ t, keyMatch timer.clientId timer.clientIndex t = true →
      keyMatch timer.clientId timer.clientIndex (mergeTags t timer) = true := by
  intro t _
  simp [keyMatch, mergeTags]

/-- Helper: the effect of one `UpdateFromClient` call on the lookup of an
arbitrary identity. -/
theorem lookupTags_updateFromClient (c : TimersContainer)
    (timer : TimerTag) (qcid qcidx : Int) :
    lookupTags qcid qcidx (UpdateFromClient c timer).2.tags
      = if qcid = timer.clientId ∧ qcidx = timer.clientIndex then
          match lookupTags timer.clientId timer.clientIndex c.tags with
          | some e => some (mergeTags e timer)
          | none => some { timer with timerId := c.lastId + 1 }
        else lookupTags qcid qcidx c.tags := by
  by_cases hq : qcid = timer.clientId ∧ qcidx = timer.clientIndex
  · obtain ⟨hq1, hq2⟩ := hq
    subst hq1
    subst hq2
    rw [if_pos ⟨rfl, rfl⟩]
    cases hl : lookupTags timer.clientId timer.clientIndex c.tags with
    | some e =>
      simp only [UpdateFromClient, hl]
      rw [lookupTags_replaceTags_self _ _ _ _ (keyMatch_mergeTags timer), hl]
      rfl
    | none =>
      simp only [UpdateFromClient, hl]
      exact lookupTags_insertEntry_self
        { timer with timerId := c.lastId + 1 } c.tags hl
  · rw [if_neg hq]
    cases hl : lookupTags timer.clientId timer.clientIndex c.tags with
    | some e =>
      simp only [UpdateFromClient, hl]
      exact lookupTags_replaceTags_other _ _ _ _ _ _ hq
        (keyMatch_mergeTags timer)
    | none =>
      simp only [UpdateFromClient, hl]
      refine lookupTags_insertEntry_other _ _ _ _ ?_
      exact keyMatch_unique timer.clientId timer.clientIndex _ _ _
        (by simp [keyMatch]) hq

/-- Helper: the numeric id of the record carrying a fixed identity is
stable under any further sequence of upserts. -/
theorem lookupTags_applyUpdates_id_stable (cid cidx : Int)
    (ts : List TimerTag) :
    ∀ (c : TimersContainer) (e : TimerTag),
      lookupTags cid cidx c.tags = some e →
      ∃ e2, lookupTags cid cidx (applyUpdates c ts).tags = some e2
        ∧ e2.timerId = e.timerId := by
  induction ts with
  | nil => exact fun c e h => ⟨e, h, rfl⟩
  | cons t ts ih =>
    intro c e h
    simp only [applyUpdates]
    by_cases hq : cid = t.clientId ∧ cidx = t.clientIndex
    · have hstep := lookupTags_updateFromClient c t cid cidx
      rw [if_pos hq] at hstep
      obtain ⟨hq1, hq2⟩ := hq
      rw [← hq1, ← hq2, h] at hstep
      obtain ⟨e2, h2, hid⟩ := ih _ _ hstep
      exact ⟨e2, h2, hid⟩
    · have hstep := lookupTags_updateFromClient c t cid cidx
      rw [if_neg hq, h] at hstep
      exact ih _ _ hstep

/-- C1: for every sequence of `UpdateFromClient` calls on a timers
container, all calls carrying the same (clientId, clientIndex) identity
act on one record: the first insertion assigns the synthetic numeric id
(the incremented last id), later calls merge the incoming fields onto the
existing record instead of replacing it, preserving that id, and across
any further sequence of calls the record's id never changes. -/
theorem updateFromClient_identity_stable (c : TimersContainer)
    (timer : TimerTag) :
    (lookupTags timer.clientId timer.clientIndex c.tags = none →
      lookupTags timer.clientId timer.clientIndex
          (UpdateFromClient c timer).2.tags
        = some { timer with timerId := c.lastId + 1 })
    ∧ (∀ e, lookupTags timer.clientId timer.clientIndex c.tags = some e →
        lookupTags timer.clientId timer.clientIndex
            (UpdateFromClient c timer).2.tags
          = some (mergeTags e timer)
        ∧ (mergeTags e timer).timerId = e.timerId)
    ∧ (∀ e, lookupTags timer.clientId timer.clientIndex c.tags = some e →
        ∀ ts, ∃ e2,
          lookupTags timer.clientId timer.clientIndex
              (applyUpdates c ts).tags = some e2
          ∧ e2.timerId = e.timerId) := by
  refine ⟨?_, ?_, ?_⟩
  · intro h
    have hstep := lookupTags_updateFromClient c timer
      timer.clientId timer.clientIndex
    rw [if_pos ⟨rfl, rfl⟩, h] at hstep
    exact hstep
  · intro e h
    have hstep := lookupTags_updateFromClient c timer
      timer.clientId timer.clientIndex
    rw [if_pos ⟨rfl, rfl⟩, h] at hstep
    exact ⟨hstep, rfl⟩
  · intro e h ts
    exact lookupTags_applyUpdates_id_stable _ _ ts c e h

/-- Witness for C1: a fresh tag gets id 1 on first insertion into the
empty container, and the id survives two further upserts of the same
identity. -/
theorem updateFromClient_identity_stable_witness :
    lookupTags sampleTag.clientId sampleTag.clientIndex
        (UpdateFromClient { lastId := 0, tags := [] } sampleTag).2.tags
      = some { sampleTag with timerId := 1 }
    ∧ ∃ e2, lookupTags sampleTag.clientId sampleTag.clientIndex
          (applyUpdates
            (UpdateFromClient { lastId := 0, tags := [] } sampleTag).2
            [sampleTag, sampleTag]).tags = some e2
        ∧ e2.timerId = 1 := by
  refine ⟨(updateFromClient_identity_stable
      { lastId := 0, tags := [] } sampleTag).1 (by decide), ?_⟩
  obtain ⟨e2, h2, hid⟩ := (updateFromClient_identity_stable
      (UpdateFromClient { lastId := 0, tags := [] } sampleTag).2
      sampleTag).2.2 { sampleTag with timerId := 1 } (by decide)
      [sampleTag, sampleTag]
  exact ⟨e2, h2, hid⟩

/-- Helper: a tag matching one identity does not belong to a different
client. -/
theorem byClient_eq_false_of_keyMatch (cid cidx x : Int) (t : TimerTag)
    (h : keyMatch cid cidx t = true) (hx : cid ≠ x) :
    byClient x t = false := by
  simp only [keyMatch, Bool.and_eq_true, beq_iff_eq] at h
  simp [byClient, h.1, hx]

/-- Helper: the flattened tag list of a filtered map is the filtered
flattened tag list. -/
theorem allTags_filterTags (p : TimerTag → Bool) (m : MapTags) :
    allTags (filterTags p m) = (allTags m).filter p := by
  induction m with
  | nil => rfl
  | cons pr rest ih =>
    obtain ⟨k, b⟩ := pr
    simp [filterTags, allTags, List.filter_append, ih]

/-- Helper: replacing one identity's record does not disturb another
client's records in a bucket. -/
theorem filter_byClient_replaceBucket (cid cidx x : Int)
    (f : TimerTag → TimerTag) (b : List TimerTag) (hx : cid ≠ x)
    (hf : ∀ t, keyMatch cid cidx t = true → keyMatch cid cidx (f t) = true) :
    (replaceBucket cid cidx f b).filter (byClient x)
      = b.filter (byClient x) := by
  induction b with
  | nil => simp [replaceBucket]
  | cons t ts ih =>
    by_cases h : keyMatch cid cidx t = true
    · have h1 := byClient_eq_false_of_keyMatch cid cidx x t h hx
      have h2 := byClient_eq_false_of_keyMatch cid cidx x (f t) (hf t h) hx
      simp [replaceBucket, h, List.filter_cons, h1, h2]
    · simp [replaceBucket, h, List.filter_cons, ih]

/-- Helper: replacing one identity's record does not disturb another
client's records in the map. -/
theorem filter_byClient_replaceTags (cid cidx x : Int)
    (f : TimerTag → TimerTag) (m : MapTags) (hx : cid ≠ x)
    (hf : ∀ t, keyMatch cid cidx t = true → keyMatch cid cidx (f t) = true) :
    (allTags (replaceTags cid cidx f m)).filter (byClient x)
      = (allTags m).filter (byClient x) := by
  induction m with
  | nil => simp [replaceTags, allTags]
  | cons p rest ih =>
    obtain ⟨k, b⟩ := p
    by_cases h : bucketHasKey cid cidx b = true
    · simp only [replaceTags, h, if_true, allTags, List.filter_append]
      rw [filter_byClient_replaceBucket _ _ _ _ _ hx hf]
    · simp only [replaceTags, h, Bool.false_eq_true, if_false, allTags,
        List.filter_append]
      rw [ih]

/-- Helper: inserting another client's tag does not disturb this client's
records. -/
theorem filter_byClient_insertEntry (x : Int) (t : TimerTag) (m : MapTags)
    (hx : byClient x t = false) :
    (allTags (InsertEntry t m)).filter (byClient x)
      = (allTags m).filter (byClient x) := by
  induction m with
  | nil => simp [InsertEntry, allTags, List.filter_cons, hx]
  | cons p rest ih =>
    obtain ⟨k, b⟩ := p
    by_cases h1 : t.startTime < k
    · simp only [InsertEntry]
      rw [if_pos h1]
      simp [allTags, List.filter_append, List.filter_cons, hx]
    · by_cases h2 : t.startTime = k
      · simp only [InsertEntry]
        rw [if_neg h1, if_pos h2]
        simp [allTags, List.filter_append, List.filter_cons, hx]
      · simp only [InsertEntry]
        rw [if_neg h1, if_neg h2]
        simp only [allTags, List.filter_append]
        rw [ih]

/-- Helper: upserting a sequence of other clients' tags does not disturb
this client's records. -/
theorem filter_byClient_applyUpdates (x : Int) (ts : List TimerTag) :
    ∀ c : TimersContainer, (∀ t ∈ ts, t.clientId ≠ x) →
      (allTags (applyUpdates c ts).tags).filter (byClient x)
        = (allTags c.tags).filter (byClient x) := by
  induction ts with
  | nil => intro c _; rfl
  | cons t ts ih =>
    intro c hts
    have htx : t.clientId ≠ x := hts t (by simp)
    have hstep : (allTags (UpdateFromClient c t).2.tags).filter (byClient x)
        = (allTags c.tags).filter (byClient x) := by
      cases hl : lookupTags t.clientId t.clientIndex c.tags with
      | some e =>
        simp only [UpdateFromClient, hl]
        exact filter_byClient_replaceTags _ _ _ _ _ htx (keyMatch_mergeTags t)
      | none =>
        simp only [UpdateFromClient, hl]
        refine filter_byClient_insertEntry _ _ _ ?_
        simp [byClient, htx]
    simp only [applyUpdates]
    rw [ih _ (fun u hu => hts u (by simp [hu])), hstep]

/-- C2: reconciling the container against a freshly fetched snapshot
leaves every record belonging to a client that failed this refresh cycle
untouched — neither removed nor modified — even though the snapshot does
not contain it: the failed client's records (in scan order) are exactly
the same before and after `UpdateEntries`. -/
theorem updateEntries_failed_client_untouched
    (c snapshot : TimersContainer) (failedClients : List Int) (x : Int)
    (hx : failedClients.contains x = true)
    (hsnap : ∀ s ∈ allTags snapshot.tags, s.clientId ≠ x) :
    (allTags (UpdateEntries c snapshot failedClients).tags).filter
        (byClient x)
      = (allTags c.tags).filter (byClient x) := by
  simp only [UpdateEntries]
  rw [allTags_filterTags, List.filter_filter]
  have hc : ∀ t ∈ allTags (applyUpdates c (allTags snapshot.tags)).tags,
      (byClient x t
        && ((lookupTags t.clientId t.clientIndex snapshot.tags).isSome
              || failedClients.contains t.clientId))
        = byClient x t := by
    intro t _
    by_cases hb : byClient x t = true
    · have hcx : t.clientId = x := by simpa [byClient] using hb
      have hmem : x ∈ failedClients := by simpa using hx
      simp [hb, hcx, hmem]
    · have hb2 : byClient x t = false := by
        revert hb; cases byClient x t <;> simp
      simp [hb2]
  rw [List.filter_congr hc]
  exact filter_byClient_applyUpdates x (allTags snapshot.tags) c hsnap

/-- Witness for C2: a failed client's single record survives a
reconciliation against a snapshot that only knows another client. -/
theorem updateEntries_failed_client_untouched_witness :
    (allTags (UpdateEntries
        (UpdateFromClient { lastId := 0, tags := [] } sampleTag).2
        { lastId := 3, tags := [(5, [sampleTag2])] } [1]).tags).filter
        (byClient 1)
      = (allTags (UpdateFromClient
          { lastId := 0, tags := [] } sampleTag).2.tags).filter
          (byClient 1) :=
  updateEntries_failed_client_untouched
    (UpdateFromClient { lastId := 0, tags := [] } sampleTag).2
    { lastId := 3, tags := [(5, [sampleTag2])] } [1] 1
    (by decide) (by decide)

/-- Helper: first match over a concatenation of tag lists. -/
theorem find?_append_tags (p : TimerTag → Bool) (l1 l2 : List TimerTag) :
    (l1 ++ l2).find? p
      = match l1.find? p with
        | some t => some t
        | none => l2.find? p := by
  induction l1 with
  | nil => simp
  | cons t ts ih =>
    by_cases h : p t = true
    · rw [List.cons_append, List.find?_cons_of_pos _ h,
        List.find?_cons_of_pos _ h]
    · rw [List.cons_append, List.find?_cons_of_neg _ h,
        List.find?_cons_of_neg _ h, ih]

/-- Helper: the bucket-by-bucket next-active-timer scan is the first match
over the flattened tag list. -/
theorem getNextActiveTimerKind_eq_find? (k : TimerKind) (bIgn : Bool)
    (m : MapTags) :
    GetNextActiveTimerKind k bIgn m
      = (allTags m).find? (nextActiveSelect k bIgn) := by
  induction m with
  | nil => rfl
  | cons pr rest ih =>
    obtain ⟨key, b⟩ := pr
    cases hb : b.find? (nextActiveSelect k bIgn) with
    | some t =>
      simp [GetNextActiveTimerKind, allTags, find?_append_tags, hb]
    | none =>
      simp [GetNextActiveTimerKind, allTags, find?_append_tags, hb, ih]

/-- Helper: membership in the flattened tag list. -/
theorem mem_allTags (t : TimerTag) (m : MapTags) :
    t ∈ allTags m ↔ ∃ p ∈ m, t ∈ p.2 := by
  induction m with
  | nil => simp [allTags]
  | cons pr rest ih =>
    obtain ⟨k, b⟩ := pr
    simp [allTags, List.mem_append, ih]

/-- Helper: a bucket whose tags all share one start time is sorted. -/
theorem pairwise_le_of_const (k : Nat) (b : List TimerTag)
    (hb : ∀ t ∈ b, t.startTime = k) :
    b.Pairwise (fun a c => a.startTime ≤ c.startTime) := by
  induction b with
  | nil => simp
  | cons t ts ih =>
    refine List.Pairwise.cons ?_ (ih fun u hu => hb u (by simp [hu]))
    intro u hu
    rw [hb t (by simp), hb u (by simp [hu])]

/-- Helper: in a well-formed map the flattened tag list is chronologically
sorted. -/
theorem wfTags_allTags_sorted (m : MapTags) :
    WFTags m →
      (allTags m).Pairwise (fun a b => a.startTime ≤ b.startTime) := by
  induction m with
  | nil => intro _; simp [allTags]
  | cons pr rest ih =>
    obtain ⟨k, b⟩ := pr
    rintro ⟨hkeys, hbuckets⟩
    rw [List.map_cons, List.pairwise_cons] at hkeys
    obtain ⟨hklt, hkeys2⟩ := hkeys
    simp only [allTags]
    rw [List.pairwise_append]
    refine ⟨pairwise_le_of_const k b
        (fun t ht => hbuckets (k, b) (by simp) t ht),
      ih ⟨hkeys2, fun p hp t ht => hbuckets p (by simp [hp]) t ht⟩, ?_⟩
    intro a ha c hc
    have ha2 : a.startTime = k := hbuckets (k, b) (by simp) a ha
    obtain ⟨p, hp, hcp⟩ := (mem_allTags c rest).mp hc
    have hc2 : c.startTime = p.1 := hbuckets p (by simp [hp]) c hcp
    have hlt : k < p.1 := hklt p.1 (List.mem_map.mpr ⟨p, hp, rfl⟩)
    rw [ha2, hc2]
    exact Nat.le_of_lt hlt

/-- C3: `GetNextActiveTimer` performs the first-match scan over the
container — buckets in chronological start-time order (for a well-formed
map the flattened scan order is sorted by start time, ties kept in
insertion order within a bucket) — and returns the first record whose
status is scheduled, never one whose status is recording or completed,
skipping records with the is-reminder flag set when `bIgnoreReminders` is
true; it returns null exactly when no such record exists. -/
theorem getNextActiveTimer_correct (c : TimersContainer) (bIgn : Bool) :
    GetNextActiveTimer c bIgn
        = (allTags c.tags).find? (nextActiveSelect .any bIgn)
    ∧ (∀ t, GetNextActiveTimer c bIgn = some t →
        t.state = .scheduled ∧ t.state ≠ .recording
          ∧ t.state ≠ .completed
          ∧ (bIgn = true → t.isReminder = false))
    ∧ (GetNextActiveTimer c bIgn = none
        ↔ ∀ t ∈ allTags c.tags, nextActiveSelect .any bIgn t = false)
    ∧ (WFTags c.tags →
        (allTags c.tags).Pairwise (fun a b => a.startTime ≤ b.startTime)) := by
  have heq := getNextActiveTimerKind_eq_find? .any bIgn c.tags
  refine ⟨heq, ?_, ?_, fun hwf => wfTags_allTags_sorted _ hwf⟩
  · intro t ht
    simp only [GetNextActiveTimer] at ht
    rw [heq] at ht
    have hsel := List.find?_some ht
    simp only [nextActiveSelect, Bool.and_eq_true, beq_iff_eq] at hsel
    obtain ⟨⟨_, hst⟩, hrem⟩ := hsel
    refine ⟨hst, by rw [hst]; decide, by rw [hst]; decide, ?_⟩
    intro hb
    rw [hb] at hrem
    simpa using hrem
  · simp only [GetNextActiveTimer]
    rw [heq, List.find?_eq_none]
    simp [Bool.not_eq_true]

/-- Witness for C3: in a well-formed two-bucket container whose earlier
record is recording, the scan returns the later scheduled record, which is
neither recording nor completed nor a reminder. -/
theorem getNextActiveTimer_correct_witness :
    (sampleTag.state = .scheduled ∧ sampleTag.state ≠ .recording
      ∧ sampleTag.state ≠ .completed
      ∧ (true = true → sampleTag.isReminder = false))
    ∧ (allTags [(5, [sampleRecTag]), (100, [sampleTag])]).Pairwise
        (fun a b => a.startTime ≤ b.startTime) := by
  have h := getNextActiveTimer_correct
    { lastId := 4, tags := [(5, [sampleRecTag]), (100, [sampleTag])] } true
  exact ⟨h.2.1 sampleTag (by decide), h.2.2.2 ⟨by decide, by decide⟩⟩

/-- Helper: the reminder pass rewrites each bucket tag by `markOne`. -/
theorem markDueBucket_fst (now : Nat) (b : List TimerTag) :
    (markDueBucket now b).1 = b.map (markOne now) := by
  induction b with
  | nil => rfl
  | cons t ts ih =>
    by_cases h : dueUnqueued now t = true
    · simp [markDueBucket, markOne, h, ih]
    · simp [markDueBucket, markOne, h, ih]

/-- Helper: the ids a bucket contributes to the due-reminder queue are the
ids of its due, not-yet-queued reminders, in scan order. -/
theorem markDueBucket_snd (now : Nat) (b : List TimerTag) :
    (markDueBucket now b).2
      = (b.filter (dueUnqueued now)).map (fun t => t.timerId) := by
  induction b with
  | nil => rfl
  | cons t ts ih =>
    by_cases h : dueUnqueued now t = true
    · simp [markDueBucket, h, ih, List.filter_cons]
    · simp [markDueBucket, h, ih, List.filter_cons]

/-- Helper: `markDueBucket_fst` at the map level. -/
theorem allTags_markDueTags (now : Nat) (m : MapTags) :
    allTags (markDueTags now m).1 = (allTags m).map (markOne now) := by
  induction m with
  | nil => rfl
  | cons p rest ih =>
    obtain ⟨k, b⟩ := p
    simp [markDueTags, allTags, markDueBucket_fst, ih]

/-- Helper: `markDueBucket_snd` at the map level. -/
theorem markDueTags_snd (now : Nat) (m : MapTags) :
    (markDueTags now m).2
      = ((allTags m).filter (dueUnqueued now)).map (fun t => t.timerId) := by
  induction m with
  | nil => rfl
  | cons p rest ih =>
    obtain ⟨k, b⟩ := p
    simp [markDueTags, allTags, markDueBucket_snd, ih, List.filter_append]

/-- Helper: counting one id among the ids of a tag list. -/
theorem count_map_timerId (id : Nat) (l : List TimerTag) :
    (l.map (fun t => t.timerId)).count id
      = l.countP (fun t => t.timerId == id) := by
  induction l with
  | nil => rfl
  | cons t ts ih =>
    simp [List.count_cons, List.countP_cons, ih]

/-- Helper: counting inside a filtered tag list. -/
theorem countP_filter_tags (p q : TimerTag → Bool) (l : List TimerTag) :
    (l.filter q).countP p = l.countP (fun t => p t && q t) := by
  induction l with
  | nil => rfl
  | cons t ts ih =>
    by_cases h : q t = true
    · by_cases h2 : p t = true <;>
        simp [List.filter_cons, List.countP_cons, h, h2, ih]
    · simp [List.filter_cons, List.countP_cons, h, ih]

/-- Helper: the number of times an id enters the queue in one reminder
pass, given that exactly the tags in `hone`'s list carry the id. -/
theorem markDueTags_count_of_unique (now : Nat) (m : MapTags) (id : Nat)
    (t0 : TimerTag)
    (hone : (allTags m).filter (fun t => t.timerId == id) = [t0])
    (hdue : dueUnqueued now t0 = true) :
    (markDueTags now m).2.count id = 1 := by
  rw [markDueTags_snd, count_map_timerId, countP_filter_tags]
  have hcomm : ∀ t ∈ allTags m,
      ((fun t => t.timerId == id) t && dueUnqueued now t)
        = ((fun t => dueUnqueued now t) t && t.timerId == id) := by
    intro t _
    exact Bool.and_comm _ _
  calc (allTags m).countP
        (fun t => t.timerId == id && dueUnqueued now t)
      = (allTags m).countP (fun t => dueUnqueued now t && t.timerId == id) := by
        apply List.countP_congr
        intro t ht
        simp only [Bool.and_comm]
    _ = ((allTags m).filter (fun t => t.timerId == id)).countP
          (dueUnqueued now) := by
        rw [countP_filter_tags]
    _ = 1 := by rw [hone]; simp [List.countP_cons, hdue]

/-- Helper: a reminder pass never re-queues an id all of whose tags are
already marked as queued. -/
theorem markDueTags_count_of_marked (now : Nat) (m : MapTags) (id : Nat)
    (hmarked : ∀ t ∈ allTags m, t.timerId = id → t.reminderQueued = true) :
    (markDueTags now m).2.count id = 0 := by
  rw [markDueTags_snd, count_map_timerId]
  refine List.countP_eq_zero.mpr ?_
  intro t ht
  rw [List.mem_filter] at ht
  obtain ⟨hmem, hdue⟩ := ht
  intro hid
  have hqueued : t.reminderQueued = true :=
    hmarked t hmem (by simpa using hid)
  simp [dueUnqueued, hqueued] at hdue

/-- Helper: a reminder pass preserves "all tags with this id are marked as
queued". -/
theorem markDueTags_preserves_marked (now : Nat) (m : MapTags) (id : Nat)
    (hmarked : ∀ t ∈ allTags m, t.timerId = id → t.reminderQueued = true) :
    ∀ t ∈ allTags (markDueTags now m).1, t.timerId = id →
      t.reminderQueued = true := by
  intro t ht hid
  rw [allTags_markDueTags, List.mem_map] at ht
  obtain ⟨u, hu, hmu⟩ := ht
  have hidu : u.timerId = id := by
    cases hmu
    by_cases hd : dueUnqueued now u = true <;>
      simp_all [markOne]
  have hq : u.reminderQueued = true := hmarked u hu hidu
  cases hmu
  simp [markOne, dueUnqueued, hq]

/-- Helper: the first reminder pass marks every tag carrying the id, when
the only tag carrying it is due. -/
theorem markDueTags_marks_unique (now : Nat) (m : MapTags) (id : Nat)
    (t0 : TimerTag)
    (hone : (allTags m).filter (fun t => t.timerId == id) = [t0])
    (hdue : dueUnqueued now t0 = true) :
    ∀ t ∈ allTags (markDueTags now m).1, t.timerId = id →
      t.reminderQueued = true := by
  intro t ht hid
  rw [allTags_markDueTags, List.mem_map] at ht
  obtain ⟨u, hu, hmu⟩ := ht
  have hidu : u.timerId = id := by
    cases hmu
    by_cases hd : dueUnqueued now u = true <;>
      simp_all [markOne]
  have hu0 : u = t0 := by
    have hmem : u ∈ (allTags m).filter (fun t => t.timerId == id) := by
      rw [List.mem_filter]
      exact ⟨hu, by simp [hidu]⟩
    rw [hone] at hmem
    simpa using hmem
  cases hmu
  rw [hu0]
  simp [markOne, hdue]

/-- Helper: repeated reminder passes preserve the one-queued-copy
invariant. -/
theorem queueDue_fold_invariant (id : Nat) (nows : List Nat) :
    ∀ s : TimersState,
      (∀ t ∈ allTags s.container.tags, t.timerId = id →
        t.reminderQueued = true) →
      s.remindersToAnnounce.count id = 1 →
      (∀ t ∈ allTags (foldQueueDue nows s).container.tags,
        t.timerId = id → t.reminderQueued = true)
      ∧ (foldQueueDue nows s).remindersToAnnounce.count id = 1 := by
  induction nows with
  | nil => exact fun s hm hc => ⟨hm, hc⟩
  | cons n ns ih =>
    intro s hm hc
    have hstep : foldQueueDue (n :: ns) s
        = foldQueueDue ns (queueDueReminders n s) := rfl
    rw [hstep]
    refine ih (queueDueReminders n s) ?_ ?_
    · exact markDueTags_preserves_marked n s.container.tags id hm
    · simp only [queueDueReminders, List.count_append]
      rw [hc, markDueTags_count_of_marked n s.container.tags id hm]

/-- Helper: retrieval pops the front of the due-reminder queue. -/
theorem getNextReminder_pops (s : TimersState) (i : Nat)
    (s2 : TimersState)
    (h : GetNextReminderToAnnnounce s = (some i, s2)) :
    s.remindersToAnnounce = i :: s2.remindersToAnnounce := by
  cases hq : s.remindersToAnnounce with
  | nil => simp [GetNextReminderToAnnnounce, hq] at h
  | cons a rest =>
    simp only [GetNextReminderToAnnnounce, hq, Prod.mk.injEq,
      Option.some.injEq] at h
    obtain ⟨h1, h2⟩ := h
    rw [h1, ← h2]

/-- Helper: draining the due-reminder queue announces exactly its
contents, in order. -/
theorem drainReminders_eq (q : List Nat) :
    ∀ s : TimersState, s.remindersToAnnounce = q →
      drainReminders s = q := by
  induction q with
  | nil =>
    intro s hs
    rw [drainReminders]
    split
    · rfl
    · rename_i i s2 h
      simp [GetNextReminderToAnnnounce, hs] at h
  | cons i rest ih =>
    intro s hs
    rw [drainReminders]
    split
    · rename_i h
      simp [GetNextReminderToAnnnounce, hs] at h
    · rename_i j s2 h
      simp only [GetNextReminderToAnnnounce, hs, Prod.mk.injEq,
        Option.some.injEq] at h
      obtain ⟨h1, h2⟩ := h
      rw [h1, ih s2 (by rw [← h2])]

/-- C8: a reminder timer whose start time has passed is appended to the
due-reminder FIFO exactly once by the reminder pass after container load,
is never re-appended by later passes, each retrieval removes the returned
entry from the front of the queue, and a full drain announces the id
exactly once. -/
theorem reminder_retrieved_exactly_once
    (s : TimersState) (id : Nat) (t0 : TimerTag) (now : Nat)
    (nows : List Nat)
    (hone : (allTags s.container.tags).filter
        (fun t => t.timerId == id) = [t0])
    (hdue : dueUnqueued now t0 = true)
    (hq : s.remindersToAnnounce.count id = 0) :
    (queueDueReminders now s).remindersToAnnounce.count id = 1
    ∧ (foldQueueDue nows
        (queueDueReminders now s)).remindersToAnnounce.count id = 1
    ∧ (drainReminders (foldQueueDue nows
        (queueDueReminders now s))).count id = 1
    ∧ (∀ i s2, GetNextReminderToAnnnounce (queueDueReminders now s)
          = (some i, s2) →
        (queueDueReminders now s).remindersToAnnounce
          = i :: s2.remindersToAnnounce) := by
  have hcount1 : (queueDueReminders now s).remindersToAnnounce.count id
      = 1 := by
    simp only [queueDueReminders, List.count_append]
    rw [hq, markDueTags_count_of_unique now s.container.tags id t0 hone hdue]
  have hmarked : ∀ t ∈ allTags (queueDueReminders now s).container.tags,
      t.timerId = id → t.reminderQueued = true := by
    intro t ht hid
    exact markDueTags_marks_unique now s.container.tags id t0 hone hdue t
      (by simpa [queueDueReminders] using ht) hid
  have hfold := queueDue_fold_invariant id nows
    (queueDueReminders now s) hmarked hcount1
  refine ⟨hcount1, hfold.2, ?_, ?_⟩
  · rw [drainReminders_eq _ _ rfl]
    exact hfold.2
  · intro i s2 h
    exact getNextReminder_pops _ _ _ h

/-- Witness for C8: one due reminder, queued by the load-time pass, stays
queued exactly once over two further passes, and a full drain announces it
exactly once. -/
theorem reminder_retrieved_exactly_once_witness :
    (queueDueReminders 50 sampleReminderState).remindersToAnnounce.count 4
        = 1
    ∧ List.count 4 (foldQueueDue [60, 70]
        (queueDueReminders 50 sampleReminderState)).remindersToAnnounce = 1
    ∧ (drainReminders (foldQueueDue [60, 70]
        (queueDueReminders 50 sampleReminderState))).count 4 = 1
    ∧ (∀ i s2, GetNextReminderToAnnnounce
          (queueDueReminders 50 sampleReminderState) = (some i, s2) →
        (queueDueReminders 50 sampleReminderState).remindersToAnnounce
          = i :: s2.remindersToAnnounce) :=
  reminder_retrieved_exactly_once sampleReminderState 4 sampleReminderTag
    50 [60, 70] (by decide) (by decide) (by decide)

end PVR
